import Mathlib

/-!
# Movie recommendation front end (`my-rag-frontend/src/app/page.js`)

A shallow embedding of the `Home` component: its result renderer (rating
filter, overview truncation, release year) and its search controller
(`handleSearch`, the key / button / history-entry handlers), followed by the
properties established about them.

JavaScript strings are sequences of UTF-16 code units; `length`, `substring`
and `split` all count code units, so a string is modelled as a list of them.
-/

namespace Page

/-! ## Values -/

/-- A UTF-16 code unit (a number below 65536). -/
abbrev CodeUnit := Nat

/-- A JavaScript string: its sequence of UTF-16 code units. -/
abbrev JSString := List CodeUnit

/-- The code unit of `-`, the separator of `release_date.split("-")`. -/
def dash : CodeUnit := 45

/-- The three code units appended by the template literal of the overview. -/
def ellipsis : JSString := [46, 46, 46]

/-- A JavaScript number (an IEEE-754 double) by kind: a non-zero finite value is
`±(mant + 1) · 2 ^ exp`. -/
inductive JSNumber where
  | nan
  | inf (neg : Bool)
  | zero (neg : Bool)
  | finite (neg : Bool) (mant : Nat) (exp : Int)
deriving DecidableEq, Repr

/-- The number is `+0` or `-0`. -/
def JSNumber.isZero : JSNumber → Bool
  | .zero _ => true
  | _ => false

/-- The number is strictly greater than zero. -/
def JSNumber.isPositive : JSNumber → Bool
  | .inf false => true
  | .finite false _ _ => true
  | _ => false

/-- The comparison `x == 0` on numbers: IEEE equality, under which `NaN` equals nothing and
`-0` equals `0`. -/
def JSNumber.looseEqZero : JSNumber → Bool
  | .nan => false
  | .inf _ => false
  | .zero _ => true
  | .finite _ _ _ => false

/-- The comparison `x != 0`. -/
def JSNumber.looseNeZero (x : JSNumber) : Bool := !x.looseEqZero

/-- What a JavaScript operation can throw. -/
inductive JSError where
  | typeError
  | networkError
  | syntaxError
deriving DecidableEq, Repr

/-- One element of `similar_movies`; an absent (`undefined` or `null`) `release_date`
is `none`. -/
structure Movie where
  title : JSString
  overview : JSString
  poster_path : JSString
  release_date : Option JSString
  vote_average : JSNumber
  vote_count : Nat
deriving DecidableEq, Repr

/-- The parsed body of a response of `/api/query`. -/
structure RecResult where
  recommendation : JSString
  similar_movies : List Movie
deriving DecidableEq, Repr

/-! ## Result renderer (lines 119-161) -/

/-- `s.substring(a, b)`: both indices are clamped to the length and swapped when
out of order. -/
def substring (s : JSString) (a b : Nat) : JSString :=
  let a1 := min a s.length
  let b1 := min b s.length
  (s.drop (min a1 b1)).take (max a1 b1 - min a1 b1)

/-- `s.split(sep)` for a separator of one code unit. -/
def split (sep : CodeUnit) : JSString → List JSString
  | [] => [[]]
  | c :: cs =>
    if c = sep then [] :: split sep cs
    else
      match split sep cs with
      | [] => [[c]]
      | p :: ps => (c :: p) :: ps

/-- Optional chaining `base?.chain`: an absent base short-circuits the whole chain to
`undefined` instead of throwing. -/
def optChain {α β : Type} (base : Option α) (chain : α → Except JSError (Option β)) :
    Except JSError (Option β) :=
  match base with
  | none => .ok none
  | some a => chain a

/-- Line 145, `movie.release_date?.split("-")[0]`; `none` is `undefined`, which renders
nothing. -/
def releaseYear (release_date : Option JSString) : Except JSError (Option JSString) :=
  optChain release_date (fun s => .ok ((split dash s)[0]?))

/-- Lines 148-150: the overview paragraph. -/
def overviewText (overview : JSString) : JSString :=
  if overview.length > 100 then substring overview 0 100 ++ ellipsis else overview

/-- Line 129: the predicate of the filter, `movie.vote_average != 0`. -/
def keepMovie (movie : Movie) : Bool := movie.vote_average.looseNeZero

/-- Lines 128-129: the movies that get a card, in order. -/
def gridMovies (result : RecResult) : List Movie :=
  result.similar_movies.filter keepMovie

/-- The text content of one card (lines 131-157). -/
structure Card where
  title : JSString
  year : Option JSString
  overview : JSString
  vote_average : JSNumber
  vote_count : Nat
  poster_path : JSString
deriving DecidableEq, Repr

/-- Lines 130-158: the card rendered for one movie. -/
def renderCard (movie : Movie) : Except JSError Card := do
  let year ← releaseYear movie.release_date
  pure { title := movie.title, year := year, overview := overviewText movie.overview,
         vote_average := movie.vote_average, vote_count := movie.vote_count,
         poster_path := movie.poster_path }

/-- Lines 128-158: the grid, one card per kept movie. -/
def renderGrid (result : RecResult) : Except JSError (List Card) :=
  (gridMovies result).mapM renderCard

/-! ## Session state (lines 8-13) -/

/-- The state cells of `Home` that the handlers read or write; a render closes over one
such value. -/
structure State where
  query : JSString
  result : Option RecResult
  loading : Bool
  history : List JSString
  showHistory : Bool
deriving DecidableEq, Repr

/-- The state of the first render: the arguments of the `useState` calls. -/
def State.initial : State :=
  { query := [], result := none, loading := false, history := [], showHistory := false }

/-- A call of a state setter. `appendHistory q` is the functional update
`setHistory((prevHistory) => [...prevHistory, q])` of line 37. -/
inductive Write where
  | setQuery (q : JSString)
  | setResult (data : RecResult)
  | setLoading (b : Bool)
  | appendHistory (q : JSString)
  | setShowHistory (b : Bool)
deriving DecidableEq, Repr

/-- The effect of one setter call on the state. -/
def Write.apply (s : State) : Write → State
  | .setQuery q => { s with query := q }
  | .setResult data => { s with result := some data }
  | .setLoading b => { s with loading := b }
  | .appendHistory q => { s with history := s.history ++ [q] }
  | .setShowHistory b => { s with showHistory := b }

/-- Setter calls take effect in the order in which they were made. -/
def applyWrites (s : State) (ws : List Write) : State := ws.foldl Write.apply s

/-- The value written when the call is `setLoading`. -/
def Write.loadingValue : Write → Option Bool
  | .setLoading b => some b
  | _ => none

/-! ## Runs of statements -/

/-- What running a piece of code did: the setter calls it made, what it logged with
`console.error`, and the exception it ended with, if any. -/
structure Run where
  writes : List Write
  logs : List JSError
  raised : Option JSError
deriving DecidableEq, Repr

/-- The empty statement. -/
def Run.skip : Run := { writes := [], logs := [], raised := none }

/-- One setter call. -/
def Run.write (w : Write) : Run := { writes := [w], logs := [], raised := none }

/-- A `console.error` call. -/
def Run.log (e : JSError) : Run := { writes := [], logs := [e], raised := none }

/-- A statement that throws. -/
def Run.throw (e : JSError) : Run := { writes := [], logs := [], raised := some e }

/-- Sequencing `a; b`: `b` runs only when `a` completes normally. -/
def Run.seq (a b : Run) : Run :=
  match a.raised with
  | some _ => a
  | none => { writes := a.writes ++ b.writes, logs := a.logs ++ b.logs, raised := b.raised }

/-- The statement `try { body } catch (e) { handler e } finally { fin }`: the handler runs
when the body throws, `fin` runs in every case, and the statement ends with the exception
of `fin`, or else with that of the handler (or of the body when it did not throw). -/
def tryCatchFinally (body : Run) (handler : JSError → Run) (fin : Run) : Run :=
  let guarded : Run :=
    match body.raised with
    | none => body
    | some e =>
      { writes := body.writes ++ (handler e).writes, logs := body.logs ++ (handler e).logs,
        raised := (handler e).raised }
  { writes := guarded.writes ++ fin.writes, logs := guarded.logs ++ fin.logs,
    raised := match fin.raised with
      | some e => some e
      | none => guarded.raised }

/-! ## Search controller (lines 23-44) -/

/-- The values `handleSearch` receives as `langQuery`: nothing, a string, or the click
event React passes to an `onClick` handler. -/
inductive Value where
  | undefined
  | str (s : JSString)
  | event
deriving DecidableEq, Repr

/-- Truthiness, as tested by `!langQuery`: `undefined` and the empty string are falsy, an
object is truthy. -/
def Value.truthy : Value → Bool
  | .undefined => false
  | .str s => !s.isEmpty
  | .event => true

/-- Lines 25-27: the value of `langQuery` after `if (!langQuery) { langQuery = query; }`. -/
def effectiveQuery (query : JSString) (langQuery : Value) : Value :=
  if !langQuery.truthy then .str query else langQuery

/-- Line 32, `JSON.stringify({ query: langQuery })`, identified with the value it
serialises. A string always serialises; whether the event object does (it throws a
`TypeError` when it is cyclic) is given by `eventThrows`. -/
def jsonStringify (eventThrows : Bool) (v : Value) : Except JSError Value :=
  match v with
  | .event => if eventThrows then .error .typeError else .ok .event
  | v => .ok v

/-- How the two awaits of lines 29 and 34 end. -/
inductive Outcome where
  | fetchRejects
  | jsonRejects
  | resolves (data : RecResult)
deriving DecidableEq, Repr

/-- The outcome is one of the two failures. -/
def Outcome.isFailure : Outcome → Bool
  | .resolves _ => false
  | _ => true

/-- Lines 29-33 up to the call of `fetch`: the query of the request that is issued, or
the exception thrown while building its body. `render` is the state the handler closes
over. -/
def issueRequest (render : State) (langQuery : Value) (eventThrows : Bool) :
    Except JSError Value :=
  jsonStringify eventThrows (effectiveQuery render.query langQuery)

/-- Lines 29-38 from the first await on. -/
def afterFetch (render : State) : Outcome → Run
  | .fetchRejects => Run.throw .networkError
  | .jsonRejects => Run.throw .syntaxError
  | .resolves data =>
    Run.seq (Run.write (.setResult data))
      (if !render.history.contains render.query then Run.write (.appendHistory render.query)
       else Run.skip)

/-- Lines 29-38: the try block. -/
def tryBlock (render : State) (langQuery : Value) (eventThrows : Bool) (o : Outcome) : Run :=
  match issueRequest render langQuery eventThrows with
  | .error e => Run.throw e
  | .ok _ => afterFetch render o

/-- Lines 39-41: the catch block. -/
def catchBlock (e : JSError) : Run := Run.log e

/-- Lines 41-43: the finally block. -/
def finallyBlock : Run := Run.write (.setLoading false)

/-- Lines 23-44: one whole invocation of `handleSearch` created by the render `render`,
called with `langQuery`, whose awaits end as `o`. -/
def handleSearch (render : State) (langQuery : Value) (eventThrows : Bool) (o : Outcome) :
    Run :=
  Run.seq (Run.write (.setLoading true))
    (tryCatchFinally (tryBlock render langQuery eventThrows o) catchBlock finallyBlock)

/-! ## Triggers and arrivals (lines 46-50, 62-110) -/

/-- An invocation of `handleSearch` suspended at its await: the render it closes over and
the query of the request it issued. -/
structure Invocation where
  render : State
  request : Value
deriving DecidableEq, Repr

/-- The rest of a suspended invocation once its awaits end as `o`. -/
def resume (inv : Invocation) (o : Outcome) : Run :=
  tryCatchFinally (afterFetch inv.render o) catchBlock finallyBlock

/-- The committed state together with the invocations in flight, oldest first. -/
structure Sys where
  ui : State
  pending : List Invocation
deriving DecidableEq, Repr

/-- A call of `handleSearch` up to its first await: when the request is issued the call
has written `setLoading(true)` and is suspended; when building the body throws the call
runs to its end at once. -/
def callHandleSearch (render : State) (langQuery : Value) (eventThrows : Bool) :
    List Write × Option Invocation :=
  match issueRequest render langQuery eventThrows with
  | .error _ => ((handleSearch render langQuery eventThrows .fetchRejects).writes, none)
  | .ok req => ([.setLoading true], some { render := render, request := req })

/-- An event handler that makes the setter calls `pre`, calls `handleSearch(langQuery)` and
then makes the setter calls `post`, all against the current render. -/
def launch (sys : Sys) (pre : List Write) (langQuery : Value) (eventThrows : Bool)
    (post : List Write) : Sys :=
  { ui := applyWrites sys.ui (pre ++ (callHandleSearch sys.ui langQuery eventThrows).1 ++ post),
    pending := sys.pending ++ (callHandleSearch sys.ui langQuery eventThrows).2.toList }

/-- What can happen to the page. -/
inductive Event where
  | typeText (s : JSString)
  | keyUp (isEnter : Bool)
  | submitClick (eventThrows : Bool)
  | historyClick (index : Nat)
  | toggleHistory
  | focusInput
  | settle (index : Nat) (o : Outcome)
deriving DecidableEq, Repr

/-- One event.
* `typeText`: `onChange` of the input (line 67).
* `keyUp`: `handleKeyUp` (lines 46-50), which calls `handleSearch()`.
* `submitClick`: the button (lines 104-110); `onClick={handleSearch}` passes the click
  event as `langQuery`, and a disabled button fires nothing.
* `historyClick`: the entry at `index` of the open history list (lines 85-92); the click
  then bubbles to the toggle of line 75.
* `toggleHistory`, `focusInput`: lines 75 and 70.
* `settle`: the awaits of the invocation at `index` of `pending` end. -/
def step (sys : Sys) : Event → Sys
  | .typeText s => { sys with ui := applyWrites sys.ui [.setQuery s] }
  | .keyUp isEnter => if isEnter then launch sys [] .undefined false [] else sys
  | .submitClick eventThrows =>
    if sys.ui.loading then sys else launch sys [] .event eventThrows []
  | .historyClick index =>
    if sys.ui.showHistory then
      match sys.ui.history[index]? with
      | none => sys
      | some item =>
        launch sys [.setQuery item] (.str item) false
          [.setShowHistory false, .setShowHistory (!sys.ui.showHistory)]
    else sys
  | .toggleHistory => { sys with ui := applyWrites sys.ui [.setShowHistory (!sys.ui.showHistory)] }
  | .focusInput => { sys with ui := applyWrites sys.ui [.setShowHistory false] }
  | .settle index o =>
    match sys.pending[index]? with
    | none => sys
    | some inv =>
      { ui := applyWrites sys.ui (resume inv o).writes, pending := sys.pending.eraseIdx index }

/-- A sequence of events, in order. -/
def run (sys : Sys) (events : List Event) : Sys := events.foldl step sys

/-- No invocation is in flight and the loading flag is down. -/
def Sys.quiescent (sys : Sys) : Bool := !sys.ui.loading && sys.pending.isEmpty

/-- At no moment of the run are two invocations in flight. -/
def noOverlap : Sys → List Event → Bool
  | sys, [] => decide (sys.pending.length ≤ 1)
  | sys, e :: es => decide (sys.pending.length ≤ 1) && noOverlap (step sys e) es

/-- The text `sci-fi`. -/
def txtSciFi : JSString := [115, 99, 105, 45, 102, 105]

/-- The text `comedy`. -/
def txtComedy : JSString := [99, 111, 109, 101, 100, 121]

/-- The text `drama`. -/
def txtDrama : JSString := [100, 114, 97, 109, 97]

/-- A response body with no movies. -/
def sampleResult : RecResult := { recommendation := txtDrama, similar_movies := [] }

/-- The setter calls of the try block: none when it throws, otherwise `setResult` and, when
the query of the render is not in the history of the render, the append. -/
def tryWrites (render : State) : Outcome → List Write
  | .resolves data =>
    if render.history.contains render.query then [.setResult data]
    else [.setResult data, .appendHistory render.query]
  | _ => []

/-- The page with `sci-fi` typed into the input and nothing else done. -/
def sysTyped : Sys := { ui := { State.initial with query := txtSciFi }, pending := [] }

/-- The page with `drama` typed into the input while the history list, whose one entry is
the empty string, is open. -/
def sysEmptyEntry : Sys :=
  { ui := { State.initial with query := txtDrama, history := [[]], showHistory := true },
    pending := [] }

/-- The page with `drama` typed into the input while the history list, holding `comedy`,
is open. -/
def sysReplay : Sys :=
  { ui := { State.initial with query := txtDrama, history := [txtComedy], showHistory := true },
    pending := [] }

/-! ## Properties of the result renderer -/

theorem substring_zero (s : JSString) (n : Nat) : substring s 0 n = s.take n := by
  simp [substring, List.take_take]

theorem split_ne_nil (sep : CodeUnit) (s : JSString) : split sep s ≠ [] := by
  cases s with
  | nil => simp [split]
  | cons c cs =>
    simp only [split]
    split_ifs
    · simp
    · cases split sep cs <;> simp

theorem split_head (sep : CodeUnit) (s : JSString) :
    (split sep s)[0]? = some (s.takeWhile (fun c => c != sep)) := by
  induction s with
  | nil => simp [split]
  | cons c cs ih =>
    simp only [split]
    by_cases h : c = sep
    · simp [h]
    · have hne : split sep cs ≠ [] := split_ne_nil sep cs
      cases hs : split sep cs with
      | nil => exact absurd hs hne
      | cons p ps =>
        rw [hs] at ih
        simp at ih
        simp [h, List.takeWhile_cons, ih]

theorem takeWhile_ne_decomp (sep : CodeUnit) (s : JSString) :
    sep ∉ s.takeWhile (fun c => c != sep) ∧
    (s = s.takeWhile (fun c => c != sep) ∨
      ∃ rest, s = s.takeWhile (fun c => c != sep) ++ sep :: rest) := by
  induction s with
  | nil => simp
  | cons c cs ih =>
    by_cases h : c = sep
    · subst h
      simp [List.takeWhile_cons]
    · obtain ⟨h1, h2⟩ := ih
      have hc : (c != sep) = true := by simpa using h
      simp only [List.takeWhile_cons, hc, if_true]
      refine ⟨?_, ?_⟩
      · intro hm
        rcases List.mem_cons.1 hm with h3 | h3
        · exact h h3.symm
        · exact h1 h3
      · rcases h2 with h2 | ⟨rest, h2⟩
        · left
          rw [← h2]
        · right
          exact ⟨rest, by rw [List.cons_append, ← h2]⟩

theorem releaseYear_some (s : JSString) :
    releaseYear (some s) = .ok (some (s.takeWhile (fun c => c != dash))) := by
  simp [releaseYear, optChain, split_head]

theorem renderCard_ok (movie : Movie) :
    renderCard movie = .ok
      { title := movie.title,
        year := movie.release_date.map (fun s => s.takeWhile (fun c => c != dash)),
        overview := overviewText movie.overview,
        vote_average := movie.vote_average, vote_count := movie.vote_count,
        poster_path := movie.poster_path } := by
  cases h : movie.release_date with
  | none => simp [renderCard, h, releaseYear, optChain, bind, Except.bind, pure, Except.pure]
  | some s =>
    simp [renderCard, h, releaseYear_some, bind, Except.bind, pure, Except.pure]

theorem renderGrid_ok (result : RecResult) :
    ∃ cards, renderGrid result = .ok cards ∧
      cards.map Card.title = (gridMovies result).map Movie.title := by
  unfold renderGrid
  induction gridMovies result with
  | nil => exact ⟨[], rfl, rfl⟩
  | cons m ms ih =>
    obtain ⟨cards, hc, ht⟩ := ih
    obtain ⟨card, hcard, htitle⟩ : ∃ card, renderCard m = .ok card ∧ card.title = m.title :=
      ⟨_, renderCard_ok m, rfl⟩
    refine ⟨card :: cards, ?_, ?_⟩
    · rw [List.mapM_cons, hcard, hc]
      rfl
    · simp [ht, htitle]

/-- C4. Truncation law: the overview paragraph is the overview itself when it has at most
100 code units and otherwise its first 100 code units followed by the marker `...` (three
code units 46); in both cases the text before the marker has at most 100 code units and
starts the overview. An overview of 101 letters `A` is shown as 100 of them and `...`. -/
theorem overviewText_truncation (S : JSString) :
    overviewText S = (if S.length ≤ 100 then S else S.take 100 ++ [46, 46, 46]) ∧
    (∃ body marker, overviewText S = body ++ marker ∧
      marker = (if S.length ≤ 100 then [] else [46, 46, 46]) ∧
      body = (if S.length ≤ 100 then S else S.take 100) ∧
      body.length ≤ 100 ∧ body <+: S) ∧
    overviewText (List.replicate 101 65) = List.replicate 100 65 ++ [46, 46, 46] ∧
    overviewText (List.replicate 100 65) = List.replicate 100 65 := by
  refine ⟨?_, ?_, by decide, by decide⟩
  · by_cases h : S.length ≤ 100
    · have h2 : ¬ S.length > 100 := by omega
      simp [overviewText, h, h2]
    · have h2 : S.length > 100 := by omega
      simp [overviewText, h, h2, substring_zero, ellipsis]
  · by_cases h : S.length ≤ 100
    · have h2 : ¬ S.length > 100 := by omega
      exact ⟨S, [], by simp [overviewText, h2], by simp [h], by simp [h], h,
        List.prefix_refl S⟩
    · have h2 : S.length > 100 := by omega
      refine ⟨S.take 100, [46, 46, 46], by simp [overviewText, h2, substring_zero, ellipsis],
        by simp [h], by simp [h], ?_, ?_⟩
      · simp
      · exact List.take_prefix 100 S

/-- C5. Rating filter: a movie of `similar_movies` gets a card exactly when its rating is
not zero; a movie rated zero never does, a movie rated above zero always does, and the
movies kept stand in the order they have in `similar_movies`, one card each. -/
theorem gridMovies_rating_filter (result : RecResult) :
    (∀ m, m ∈ gridMovies result ↔ m ∈ result.similar_movies ∧ m.vote_average.isZero = false) ∧
    (∀ m, m.vote_average.isZero = true → m ∉ gridMovies result) ∧
    (∀ m, m ∈ result.similar_movies → m.vote_average.isPositive = true →
      m ∈ gridMovies result) ∧
    (gridMovies result).Sublist result.similar_movies ∧
    (∀ m, m.vote_average.isZero = false →
      (gridMovies result).count m = result.similar_movies.count m) ∧
    (∃ cards, renderGrid result = .ok cards ∧
      cards.map Card.title = (gridMovies result).map Movie.title) := by
  have key : ∀ m : Movie, keepMovie m = true ↔ m.vote_average.isZero = false := by
    intro m
    cases hv : m.vote_average <;>
      simp [keepMovie, JSNumber.looseNeZero, JSNumber.looseEqZero, JSNumber.isZero, hv]
  refine ⟨?_, ?_, ?_, ?_, ?_, renderGrid_ok result⟩
  · intro m
    simp [gridMovies, List.mem_filter, key]
  · intro m hz hm
    have := (List.mem_filter.1 hm).2
    rw [key] at this
    rw [hz] at this
    exact Bool.noConfusion this
  · intro m hm hp
    refine List.mem_filter.2 ⟨hm, ?_⟩
    rw [key]
    cases hv : m.vote_average with
    | nan => rfl
    | inf neg => rfl
    | zero neg => rw [hv] at hp; simp [JSNumber.isPositive] at hp
    | finite neg mant exp => rfl
  · exact List.filter_sublist _
  · intro m hz
    have hk : keepMovie m = true := (key m).2 hz
    simp [gridMovies, List.count_filter, hk]

/-- C9. Release year: the year shown is the part of `release_date` before its first `-`
(all of it when it has none), `2014` for `2014-11-07`; with `release_date` absent the
year is `undefined`, which renders nothing, and the card is rendered without an
exception. -/
theorem releaseYear_spec :
    (∀ s : JSString, ∃ year, releaseYear (some s) = .ok (some year) ∧ dash ∉ year ∧
      (s = year ∨ ∃ rest, s = year ++ dash :: rest)) ∧
    (∀ s : JSString, dash ∉ s → releaseYear (some s) = .ok (some s)) ∧
    releaseYear (some [50, 48, 49, 52, 45, 49, 49, 45, 48, 55]) = .ok (some [50, 48, 49, 52]) ∧
    releaseYear none = .ok none ∧
    (∀ m : Movie, ∃ card, renderCard m = .ok card ∧
      (m.release_date = none → card.year = none) ∧
      (∀ s, m.release_date = some s → releaseYear (some s) = .ok card.year)) := by
  refine ⟨?_, ?_, ?_, ?_, ?_⟩
  · intro s
    exact ⟨_, releaseYear_some s, (takeWhile_ne_decomp dash s).1, (takeWhile_ne_decomp dash s).2⟩
  · intro s hs
    rw [releaseYear_some]
    have : s.takeWhile (fun c => c != dash) = s := by
      rw [List.takeWhile_eq_self_iff]
      intro c hc
      have : c ≠ dash := fun h => hs (h ▸ hc)
      simpa using this
    rw [this]
  · rw [releaseYear_some]
    rfl
  · rfl
  · intro m
    refine ⟨_, renderCard_ok m, ?_, ?_⟩
    · intro h
      simp [h]
    · intro s h
      simp [h, releaseYear_some]

/-! ## Properties of the search controller -/

theorem issueRequest_undefined (render : State) (b : Bool) :
    issueRequest render .undefined b = .ok (.str render.query) := by
  simp [issueRequest, effectiveQuery, Value.truthy, jsonStringify]

theorem issueRequest_str (render : State) (s : JSString) (b : Bool) :
    issueRequest render (.str s) b = .ok (.str (if s = [] then render.query else s)) := by
  cases s <;> simp [issueRequest, effectiveQuery, Value.truthy, jsonStringify]

theorem issueRequest_event (render : State) (b : Bool) :
    issueRequest render .event b = if b then .error .typeError else .ok .event := by
  simp [issueRequest, effectiveQuery, Value.truthy, jsonStringify]

theorem resume_writes (inv : Invocation) (o : Outcome) :
    (resume inv o).writes = tryWrites inv.render o ++ [.setLoading false] := by
  cases o with
  | fetchRejects => rfl
  | jsonRejects => rfl
  | resolves data =>
    by_cases h : inv.render.query ∈ inv.render.history
    · simp [resume, afterFetch, tryCatchFinally, Run.seq, Run.write, Run.skip, finallyBlock,
        tryWrites, h]
    · simp [resume, afterFetch, tryCatchFinally, Run.seq, Run.write, Run.skip, finallyBlock,
        tryWrites, h]

theorem resume_raised (inv : Invocation) (o : Outcome) : (resume inv o).raised = none := by
  cases o with
  | fetchRejects => rfl
  | jsonRejects => rfl
  | resolves data =>
    by_cases h : inv.render.query ∈ inv.render.history
    · simp [resume, afterFetch, tryCatchFinally, Run.seq, Run.write, Run.skip, finallyBlock, h]
    · simp [resume, afterFetch, tryCatchFinally, Run.seq, Run.write, Run.skip, finallyBlock, h]

/-- An invocation is its synchronous part followed by its resumption. -/
theorem handleSearch_eq (render : State) (langQuery : Value) (b : Bool) (o : Outcome) :
    handleSearch render langQuery b o =
      match issueRequest render langQuery b with
      | .error e =>
        { writes := [.setLoading true, .setLoading false], logs := [e], raised := none }
      | .ok req =>
        { writes := .setLoading true :: (resume { render := render, request := req } o).writes,
          logs := (resume { render := render, request := req } o).logs,
          raised := (resume { render := render, request := req } o).raised } := by
  cases h : issueRequest render langQuery b with
  | error e =>
    simp [handleSearch, tryBlock, h, Run.seq, Run.write, Run.throw, tryCatchFinally, catchBlock,
      Run.log, finallyBlock]
  | ok req =>
    simp [handleSearch, tryBlock, h, Run.seq, Run.write, resume, tryCatchFinally]

theorem handleSearch_writes (render : State) (langQuery : Value) (b : Bool) (o : Outcome) :
    ∃ mid, (handleSearch render langQuery b o).writes =
        .setLoading true :: (mid ++ [.setLoading false]) ∧
      (mid = [] ∨ ∃ data, mid = [.setResult data] ∨
        mid = [.setResult data, .appendHistory render.query]) ∧
      (o.isFailure = true → mid = []) := by
  rw [handleSearch_eq]
  cases h : issueRequest render langQuery b with
  | error e => exact ⟨[], rfl, Or.inl rfl, fun _ => rfl⟩
  | ok req =>
    refine ⟨tryWrites render o, by simp [resume_writes], ?_, ?_⟩
    · cases o with
      | fetchRejects => exact Or.inl rfl
      | jsonRejects => exact Or.inl rfl
      | resolves data =>
        right
        refine ⟨data, ?_⟩
        by_cases hc : render.query ∈ render.history
        · left; simp [tryWrites, hc]
        · right; simp [tryWrites, hc]
    · intro hf
      cases o with
      | fetchRejects => rfl
      | jsonRejects => rfl
      | resolves data => simp [Outcome.isFailure] at hf

theorem handleSearch_raised (render : State) (langQuery : Value) (b : Bool) (o : Outcome) :
    (handleSearch render langQuery b o).raised = none := by
  rw [handleSearch_eq]
  cases h : issueRequest render langQuery b with
  | error e => rfl
  | ok req => exact resume_raised _ o

/-- C1. Loading writes of one invocation: whatever the argument, and whether the request
succeeds, fails, or its body cannot even be built, the `setLoading` calls of an invocation
of `handleSearch` are `true` then `false`; `setLoading(true)` is its first setter call,
`setLoading(false)` its last, and `false` is written once. -/
theorem handleSearch_loading_writes (render : State) (langQuery : Value) (eventThrows : Bool)
    (o : Outcome) :
    (handleSearch render langQuery eventThrows o).writes.filterMap Write.loadingValue
        = [true, false] ∧
    (handleSearch render langQuery eventThrows o).writes.head? = some (.setLoading true) ∧
    (handleSearch render langQuery eventThrows o).writes.getLast? = some (.setLoading false) ∧
    (handleSearch render langQuery eventThrows o).writes.count (.setLoading false) = 1 := by
  obtain ⟨mid, hw, hmid, -⟩ := handleSearch_writes render langQuery eventThrows o
  rw [hw]
  rcases hmid with rfl | ⟨data, rfl | rfl⟩
  · simp [Write.loadingValue]
  · simp [Write.loadingValue]
  · simp [Write.loadingValue]

theorem tryWrites_of_failure (render : State) (o : Outcome)
    (h : o.isFailure = true) : tryWrites render o = [] := by
  cases o with
  | fetchRejects => rfl
  | jsonRejects => rfl
  | resolves data => simp [Outcome.isFailure] at h

theorem applyWrites_snoc_setLoading (s : State) (ws : List Write) (b : Bool) :
    (applyWrites s (ws ++ [.setLoading b])).loading = b := by
  simp [applyWrites, List.foldl_append, Write.apply]

theorem callHandleSearch_eq (render : State) (langQuery : Value) (b : Bool) :
    callHandleSearch render langQuery b =
      match issueRequest render langQuery b with
      | .error _ => ([.setLoading true, .setLoading false], none)
      | .ok req => ([.setLoading true], some { render := render, request := req }) := by
  unfold callHandleSearch
  cases h : issueRequest render langQuery b with
  | error e => simp [handleSearch_eq, h]
  | ok req => rfl

/-- The writes of an invocation are those made up to its await followed by those of its
resumption. -/
theorem handleSearch_writes_split (render : State) (langQuery : Value) (b : Bool)
    (o : Outcome) :
    (handleSearch render langQuery b o).writes =
      (callHandleSearch render langQuery b).1 ++
        ((callHandleSearch render langQuery b).2.map (fun inv => (resume inv o).writes)).getD [] := by
  rw [callHandleSearch_eq, handleSearch_eq]
  cases h : issueRequest render langQuery b with
  | error e => rfl
  | ok req => rfl

/-- Every event either leaves the loading flag and the invocations in flight as they were,
or raises the flag and puts one more invocation in flight, or lowers the flag and takes one
invocation out of flight. -/
theorem step_cases (sys : Sys) (e : Event) :
    ((step sys e).ui.loading = sys.ui.loading ∧ (step sys e).pending = sys.pending) ∨
    ((step sys e).ui.loading = true ∧ ∃ inv, (step sys e).pending = sys.pending ++ [inv]) ∨
    ((step sys e).ui.loading = false ∧ ∃ index, index < sys.pending.length ∧
      (step sys e).pending = sys.pending.eraseIdx index) := by
  cases e with
  | typeText s => left; simp [step, applyWrites, Write.apply]
  | keyUp isEnter =>
    cases isEnter with
    | false => left; simp [step]
    | true =>
      right; left
      simp [step, launch, callHandleSearch_eq, issueRequest_undefined, applyWrites, Write.apply]
  | submitClick b =>
    by_cases hl : sys.ui.loading = true
    · left; simp [step, hl]
    · have hl2 : sys.ui.loading = false := by simpa using hl
      cases b with
      | true =>
        left
        simp [step, hl2, launch, callHandleSearch_eq, issueRequest_event, applyWrites,
          Write.apply]
      | false =>
        right; left
        simp [step, hl2, launch, callHandleSearch_eq, issueRequest_event, applyWrites,
          Write.apply]
  | historyClick index =>
    by_cases hs : sys.ui.showHistory = true
    · cases hi : sys.ui.history[index]? with
      | none => left; simp [step, hs, hi]
      | some item =>
        right; left
        simp [step, hs, hi, launch, callHandleSearch_eq, issueRequest_str, applyWrites,
          Write.apply]
    · left; simp [step, hs]
  | toggleHistory => left; simp [step, applyWrites, Write.apply]
  | focusInput => left; simp [step, applyWrites, Write.apply]
  | settle index o =>
    cases hi : sys.pending[index]? with
    | none => left; simp [step, hi]
    | some inv =>
      right; right
      have hlt : index < sys.pending.length := by
        by_contra hge
        rw [List.getElem?_eq_none (by omega)] at hi
        exact Option.noConfusion hi
      refine ⟨?_, index, hlt, ?_⟩
      · simp only [step, hi, resume_writes]
        exact applyWrites_snoc_setLoading _ _ _
      · simp [step, hi]

theorem run_cons (sys : Sys) (e : Event) (es : List Event) :
    run sys (e :: es) = run (step sys e) es := rfl

theorem loading_imp_pending (sys : Sys) (events : List Event)
    (h : sys.ui.loading = true → sys.pending ≠ []) :
    (run sys events).ui.loading = true → (run sys events).pending ≠ [] := by
  induction events generalizing sys with
  | nil => exact h
  | cons e es ih =>
    rw [run_cons]
    apply ih
    rcases step_cases sys e with ⟨h1, h2⟩ | ⟨-, inv, h2⟩ | ⟨h1, -⟩
    · rw [h1, h2]; exact h
    · intro _; rw [h2]; simp
    · intro hl; rw [h1] at hl; exact Bool.noConfusion hl

theorem noOverlap_length (sys : Sys) (events : List Event) (h : noOverlap sys events = true) :
    sys.pending.length ≤ 1 := by
  cases events with
  | nil => simpa [noOverlap] using h
  | cons e es =>
    simp only [noOverlap, Bool.and_eq_true, decide_eq_true_eq] at h
    exact h.1

theorem loading_iff_pending_serial (sys : Sys) (events : List Event)
    (h : sys.ui.loading = true ↔ sys.pending ≠ []) (hno : noOverlap sys events = true) :
    (run sys events).ui.loading = true ↔ (run sys events).pending ≠ [] := by
  induction events generalizing sys with
  | nil => exact h
  | cons e es ih =>
    rw [run_cons]
    have hlen := noOverlap_length sys _ hno
    have hno2 : noOverlap (step sys e) es = true := by
      simp only [noOverlap, Bool.and_eq_true, decide_eq_true_eq] at hno
      exact hno.2
    have hlen2 := noOverlap_length _ _ hno2
    apply ih _ _ hno2
    rcases step_cases sys e with ⟨h1, h2⟩ | ⟨h1, inv, h2⟩ | ⟨h1, index, hlt, h2⟩
    · rw [h1, h2]; exact h
    · rw [h1, h2]; simp
    · rw [h1, h2]
      have hl0 : (sys.pending.eraseIdx index).length = 0 := by
        rw [List.length_eraseIdx, if_pos hlt]
        omega
      simp [List.length_eq_zero.1 hl0]

/-- C6. Failure containment: when the request of an invocation fails (the fetch rejects or
the body is not JSON), the invocation ends without an exception, logs the failure, makes no
`setResult` call, so the result is the one from before, and leaves the loading flag down;
the same holds of the arrival of a failure for an invocation in flight. -/
theorem handleSearch_failure_contained (s render : State) (langQuery : Value)
    (eventThrows : Bool) (o : Outcome) (h : o.isFailure = true) :
    (handleSearch render langQuery eventThrows o).raised = none ∧
    (handleSearch render langQuery eventThrows o).logs.length = 1 ∧
    (handleSearch render langQuery eventThrows o).writes = [.setLoading true, .setLoading false] ∧
    (applyWrites s (handleSearch render langQuery eventThrows o).writes).result = s.result ∧
    (applyWrites s (handleSearch render langQuery eventThrows o).writes).loading = false ∧
    (∀ (sys : Sys) (index : Nat), index < sys.pending.length →
      (step sys (.settle index o)).ui.result = sys.ui.result ∧
      (step sys (.settle index o)).ui.loading = false ∧
      (step sys (.settle index o)).ui.history = sys.ui.history) := by
  obtain ⟨mid, hw, -, hmid⟩ := handleSearch_writes render langQuery eventThrows o
  have hm := hmid h
  subst hm
  refine ⟨handleSearch_raised _ _ _ _, ?_, by simpa using hw, ?_, ?_, ?_⟩
  · rw [handleSearch_eq]
    cases hi : issueRequest render langQuery eventThrows with
    | error e => rfl
    | ok req =>
      cases o with
      | fetchRejects => rfl
      | jsonRejects => rfl
      | resolves data => simp [Outcome.isFailure] at h
  · rw [hw]; rfl
  · rw [hw]; rfl
  · intro sys index hlt
    have hi : sys.pending[index]? = some sys.pending[index] := List.getElem?_eq_getElem hlt
    simp only [step, hi, resume_writes, tryWrites_of_failure _ o h]
    exact ⟨rfl, rfl, rfl⟩

theorem handleSearch_failure_contained_witness :
    Outcome.isFailure .fetchRejects = true ∧
    (handleSearch { State.initial with query := txtComedy } .undefined false .fetchRejects).raised
      = none ∧
    (applyWrites { State.initial with result := some sampleResult }
      (handleSearch { State.initial with query := txtComedy } .undefined false
        .fetchRejects).writes).result = some sampleResult ∧
    (applyWrites { State.initial with result := some sampleResult }
      (handleSearch { State.initial with query := txtComedy } .undefined false
        .fetchRejects).writes).loading = false :=
  ⟨rfl,
   (handleSearch_failure_contained { State.initial with result := some sampleResult }
      { State.initial with query := txtComedy } .undefined false .fetchRejects rfl).1,
   (handleSearch_failure_contained { State.initial with result := some sampleResult }
      { State.initial with query := txtComedy } .undefined false .fetchRejects rfl).2.2.2.1,
   (handleSearch_failure_contained { State.initial with result := some sampleResult }
      { State.initial with query := txtComedy } .undefined false .fetchRejects rfl).2.2.2.2.1⟩

/-- C7 (failing input). An empty history entry is reachable (Enter on an empty input, then
a successful response). With that entry in the open list and `drama` typed, a click on it
sets the query to the empty string and calls `handleSearch("")`, yet the request carries
`drama`, the query of the render before the click, and not the explicit empty string;
Enter on an empty input does send the empty string. -/
theorem historyClick_empty_entry_sends_previous_query :
    (run { ui := State.initial, pending := [] }
      [.keyUp true, .settle 0 (.resolves sampleResult)]).ui.history = [[]] ∧
    sysEmptyEntry.ui.history[0]? = some [] ∧
    (step sysEmptyEntry (.historyClick 0)).ui.query = [] ∧
    (step sysEmptyEntry (.historyClick 0)).pending.map Invocation.request = [.str txtDrama] ∧
    (step sysEmptyEntry (.historyClick 0)).pending.map Invocation.request ≠ [.str []] ∧
    effectiveQuery txtDrama (.str []) = .str txtDrama ∧
    effectiveQuery txtDrama (.str []) ≠ .str [] ∧
    (step { ui := State.initial, pending := [] } (.keyUp true)).pending.map Invocation.request
      = [.str []] := by
  refine ⟨rfl, rfl, rfl, rfl, by decide, rfl, by decide, rfl⟩

/-- What lines 25-32 send for each argument: the explicit string when it is not empty, and
the query of the render that created the handler when no argument is given or the string
given is empty. -/
theorem issueRequest_effective_query (render : State) (eventThrows : Bool) :
    issueRequest render .undefined eventThrows = .ok (.str render.query) ∧
    issueRequest render (.str []) eventThrows = .ok (.str render.query) ∧
    (∀ s : JSString, s ≠ [] → issueRequest render (.str s) eventThrows = .ok (.str s)) ∧
    (∀ s : JSString, issueRequest render (.str s) eventThrows = .ok (.str render.query) ↔
      (s = [] ∨ s = render.query)) ∧
    (step { ui := render, pending := [] } (.keyUp true)).pending
      = [{ render := render, request := .str render.query }] := by
  refine ⟨issueRequest_undefined _ _, by simp [issueRequest_str], ?_, ?_, ?_⟩
  · intro s hs
    simp [issueRequest_str, hs]
  · intro s
    rw [issueRequest_str]
    by_cases hs : s = []
    · simp [hs]
    · simp only [hs, if_false, Except.ok.injEq, Value.str.injEq, false_or]
  · simp [step, launch, callHandleSearch_eq, issueRequest_undefined]

/-- C2 (failing input). With `sci-fi` typed and an empty history, Enter pressed twice before
the first response arrives, and both responses successful, the history ends with `sci-fi`
twice: the second append is made while `sci-fi` is already a member. -/
theorem history_duplicated_by_overlapping_searches :
    sysTyped.ui.history.Nodup ∧
    (run sysTyped [.keyUp true, .keyUp true, .settle 0 (.resolves sampleResult)]).ui.history
      = [txtSciFi] ∧
    (run sysTyped [.keyUp true, .keyUp true, .settle 0 (.resolves sampleResult),
      .settle 0 (.resolves sampleResult)]).ui.history = [txtSciFi, txtSciFi] ∧
    ¬ (run sysTyped [.keyUp true, .keyUp true, .settle 0 (.resolves sampleResult),
      .settle 0 (.resolves sampleResult)]).ui.history.Nodup := by
  refine ⟨by decide, rfl, rfl, ?_⟩
  have h : (run sysTyped [.keyUp true, .keyUp true, .settle 0 (.resolves sampleResult),
      .settle 0 (.resolves sampleResult)]).ui.history = [txtSciFi, txtSciFi] := rfl
  rw [h]
  simp

/-- C3 (failing input). With history `[comedy]` and `drama` typed but not submitted, a click
on the entry `comedy` sets the query to `comedy` and sends `comedy`, and the successful
response appends `drama`: the history grows from one entry to two. -/
theorem historyClick_appends_previous_query :
    (step sysReplay (.historyClick 0)).ui.query = txtComedy ∧
    (step sysReplay (.historyClick 0)).pending.map Invocation.request = [.str txtComedy] ∧
    (run sysReplay [.historyClick 0, .settle 0 (.resolves sampleResult)]).ui.history
      = [txtComedy, txtDrama] ∧
    (run sysReplay [.historyClick 0, .settle 0 (.resolves sampleResult)]).ui.history.length
      ≠ sysReplay.ui.history.length := by
  refine ⟨rfl, rfl, rfl, ?_⟩
  decide

/-- C8 (failing input). With `sci-fi` typed and the loading flag down, Enter sends `sci-fi`,
while a click on the button calls `handleSearch` with the click event: it sends the event
object, or, when that does not serialise, sends nothing and only logs. -/
theorem submitClick_differs_from_commit_key :
    (step sysTyped (.keyUp true)).pending.map Invocation.request = [.str txtSciFi] ∧
    (step sysTyped (.submitClick false)).pending.map Invocation.request = [.event] ∧
    (step sysTyped (.submitClick true)).pending = [] ∧
    (step sysTyped (.submitClick true)).ui = sysTyped.ui ∧
    (handleSearch sysTyped.ui .event true (.resolves sampleResult)).logs = [.typeError] ∧
    step sysTyped (.submitClick false) ≠ step sysTyped (.keyUp true) ∧
    step sysTyped (.submitClick true) ≠ step sysTyped (.keyUp true) := by
  refine ⟨rfl, rfl, rfl, rfl, rfl, ?_, ?_⟩ <;> decide

/-- C10 (as stated). With `sci-fi` typed, Enter pressed twice and the first response arrived,
the loading flag is down while the second invocation is still in flight. -/
theorem loading_down_while_in_flight :
    Sys.quiescent sysTyped = true ∧
    (run sysTyped [.keyUp true, .keyUp true, .settle 0 .fetchRejects]).pending.length = 1 ∧
    (run sysTyped [.keyUp true, .keyUp true, .settle 0 .fetchRejects]).ui.loading = false ∧
    ¬ ((run sysTyped [.keyUp true, .keyUp true, .settle 0 .fetchRejects]).ui.loading = true ↔
      (run sysTyped [.keyUp true, .keyUp true, .settle 0 .fetchRejects]).pending ≠ []) := by
  refine ⟨rfl, rfl, rfl, ?_⟩
  decide

/-- C10 (amended). From a state with the flag down and nothing in flight, after any events:
the loading flag is up only if an invocation is in flight; as long as no two invocations
are ever in flight together, the flag is up exactly when one is in flight; and the arrival
of the response or error of any invocation in flight lowers the flag, whatever else is
still in flight. -/
theorem loading_reflects_in_flight (sys : Sys) (events : List Event)
    (hq : sys.quiescent = true) :
    ((run sys events).ui.loading = true → (run sys events).pending ≠ []) ∧
    (noOverlap sys events = true →
      ((run sys events).ui.loading = true ↔ (run sys events).pending ≠ [])) ∧
    (∀ index o, index < (run sys events).pending.length →
      (step (run sys events) (.settle index o)).ui.loading = false ∧
      (step (run sys events) (.settle index o)).pending
        = (run sys events).pending.eraseIdx index) := by
  simp only [Sys.quiescent, Bool.and_eq_true, Bool.not_eq_true', List.isEmpty_iff] at hq
  obtain ⟨hl, hp⟩ := hq
  refine ⟨?_, ?_, ?_⟩
  · apply loading_imp_pending
    intro h
    rw [hl] at h
    exact Bool.noConfusion h
  · intro hno
    apply loading_iff_pending_serial _ _ _ hno
    simp [hl, hp]
  · intro index o hlt
    have hi : (run sys events).pending[index]? = some (run sys events).pending[index] :=
      List.getElem?_eq_getElem hlt
    refine ⟨?_, ?_⟩
    · simp only [step, hi, resume_writes]
      exact applyWrites_snoc_setLoading _ _ _
    · simp [step, hi]

theorem loading_reflects_in_flight_witness :
    Sys.quiescent sysTyped = true ∧
    noOverlap sysTyped [.keyUp true, .settle 0 .jsonRejects, .submitClick false] = true ∧
    ((run sysTyped [.keyUp true, .settle 0 .jsonRejects, .submitClick false]).ui.loading = true ↔
      (run sysTyped [.keyUp true, .settle 0 .jsonRejects, .submitClick false]).pending ≠ []) :=
  ⟨rfl, rfl,
   (loading_reflects_in_flight sysTyped
      [.keyUp true, .settle 0 .jsonRejects, .submitClick false] rfl).2.1 rfl⟩

/-- Replay of a history entry, in general: a click on the entry `item` of the open history
list sets the query to `item` and sends `item` (the previous query when `item` is empty);
the successful response leaves the history as it is when the previous query is a member of
it and appends the previous query otherwise. -/
theorem historyClick_effect (sys : Sys) (index : Nat) (item : JSString) (data : RecResult)
    (hs : sys.ui.showHistory = true) (hi : sys.ui.history[index]? = some item)
    (hp : sys.pending = []) :
    (step sys (.historyClick index)).ui.query = item ∧
    (step sys (.historyClick index)).ui.showHistory = false ∧
    (step sys (.historyClick index)).ui.loading = true ∧
    (step sys (.historyClick index)).pending.map Invocation.request
      = [.str (if item = [] then sys.ui.query else item)] ∧
    (run sys [.historyClick index, .settle 0 (.resolves data)]).ui.history
      = (if sys.ui.query ∈ sys.ui.history then sys.ui.history
         else sys.ui.history ++ [sys.ui.query]) := by
  refine ⟨?_, ?_, ?_, ?_, ?_⟩
  · simp [step, hs, hi, launch, callHandleSearch_eq, issueRequest_str, applyWrites, Write.apply]
  · simp [step, hs, hi, launch, callHandleSearch_eq, issueRequest_str, applyWrites, Write.apply]
  · simp [step, hs, hi, launch, callHandleSearch_eq, issueRequest_str, applyWrites, Write.apply]
  · simp [step, hs, hi, hp, launch, callHandleSearch_eq, issueRequest_str]
  · by_cases hq : sys.ui.query ∈ sys.ui.history
    · simp [run, step, hs, hi, hp, launch, callHandleSearch_eq, issueRequest_str, resume_writes,
        tryWrites, hq, applyWrites, Write.apply]
    · simp [run, step, hs, hi, hp, launch, callHandleSearch_eq, issueRequest_str, resume_writes,
        tryWrites, hq, applyWrites, Write.apply]

theorem historyClick_effect_witness :
    sysReplay.ui.showHistory = true ∧ sysReplay.ui.history[0]? = some txtComedy ∧
    sysReplay.pending = [] ∧
    (step sysReplay (.historyClick 0)).ui.query = txtComedy :=
  ⟨rfl, rfl, rfl, (historyClick_effect sysReplay 0 txtComedy sampleResult rfl rfl rfl).1⟩

/-- While the loading flag is up the button is disabled: a click on it changes nothing. -/
theorem submitClick_while_loading (sys : Sys) (eventThrows : Bool)
    (h : sys.ui.loading = true) : step sys (.submitClick eventThrows) = sys := by
  simp [step, h]

theorem submitClick_while_loading_witness :
    (step sysTyped (.keyUp true)).ui.loading = true ∧
    step (step sysTyped (.keyUp true)) (.submitClick false) = step sysTyped (.keyUp true) :=
  ⟨rfl, submitClick_while_loading (step sysTyped (.keyUp true)) false rfl⟩

/-- The membership test of line 36 keeps the history free of duplicates when the history
has not changed since the render of the invocation: the arrival of any outcome for such an
invocation leaves a duplicate-free history duplicate-free. -/
theorem settle_nodup_of_same_history (sys : Sys) (index : Nat) (inv : Invocation)
    (o : Outcome) (hi : sys.pending[index]? = some inv)
    (hh : inv.render.history = sys.ui.history) (hn : sys.ui.history.Nodup) :
    (step sys (.settle index o)).ui.history.Nodup := by
  cases o with
  | fetchRejects => simpa [step, hi, resume_writes, tryWrites, applyWrites, Write.apply] using hn
  | jsonRejects => simpa [step, hi, resume_writes, tryWrites, applyWrites, Write.apply] using hn
  | resolves data =>
    by_cases hm : inv.render.query ∈ sys.ui.history
    · simpa [step, hi, resume_writes, tryWrites, applyWrites, Write.apply, hh, hm] using hn
    · have : (sys.ui.history ++ [inv.render.query]).Nodup := by
        rw [List.nodup_append]
        refine ⟨hn, by simp, ?_⟩
        intro a ha hb
        rw [List.mem_singleton] at hb
        exact hm (hb ▸ ha)
      simpa [step, hi, resume_writes, tryWrites, applyWrites, Write.apply, hh, hm] using this

theorem settle_nodup_of_same_history_witness :
    (step sysTyped (.keyUp true)).ui.history.Nodup ∧
    (run sysTyped [.keyUp true, .settle 0 (.resolves sampleResult)]).ui.history.Nodup :=
  ⟨by decide,
   settle_nodup_of_same_history (step sysTyped (.keyUp true)) 0
     { render := sysTyped.ui, request := .str txtSciFi } (.resolves sampleResult) rfl rfl
     (by decide)⟩

end Page
